import Mathlib

/-
Verification of the content pipeline in `ultimate_scraper.py`.

The pure string-processing core of the program (sentence splitting,
frequency-based extractive summarisation, dictionary paraphrasing, folder
name sanitisation, the image-harvest loop and the per-URL pipeline glue) is
embedded as executable Lean definitions over `List Char` / `String`.
Effectful library calls (HTTP fetching, HTML parsing via BeautifulSoup,
langdetect, the MD5 digest, document writers, the filesystem) are
parameterised by their outcomes; the control flow around them is translated
from the source line by line.

Encoding note: the source file on disk is UTF-8 text that was produced by
a cp1252 mis-decode of the original Devanagari literals, so the literals
the Python interpreter actually sees are the mojibake character sequences.
The embedded constants below reproduce those exact code points (decoded by
hand from the raw bytes of the file).

Character-class note: the Python operations `\w`, `\s`, `str.lower` and `str.strip` are
Unicode-aware; the embedding models their ASCII behaviour (the regex
classes `[A-Za-z0-9_]` used by `short_safe_folder` are ASCII in the source
itself).  None of the verified claims depends on the non-ASCII corners of
these classes.
-/

namespace Scraper

/-- ASCII part of the Python whitespace class ( `\s`, `str.strip` ). -/
def pySpace (c : Char) : Bool :=
  c = ' ' || c = '\t' || c = '\n' || c = '\r' || c = '\x0b' || c = '\x0c'

/-- Python `str.strip()` on a character list. -/
def pyStripL (l : List Char) : List Char :=
  ((l.dropWhile pySpace).reverse.dropWhile pySpace).reverse

/-- Python `str.strip()`. -/
def pyStrip (s : String) : String := String.mk (pyStripL s.data)

/-- Python `str.lower()` (ASCII). -/
def pyLower (s : String) : String := String.mk (s.data.map Char.toLower)

/-- Helper for substring containment: Python `pat in s`. -/
def containsAux (pat : List Char) : List Char → Bool
  | [] => pat.isEmpty
  | c :: cs => pat.isPrefixOf (c :: cs) || containsAux pat cs

/-- Python `pat in s` on strings. -/
def containsSub (s pat : String) : Bool := containsAux pat.data s.data

/-- Python `s.startswith(pre)`. -/
def startsWithS (s pre : String) : Bool := pre.data.isPrefixOf s.data

/-- Devanagari code-point test, the regex class `[ऀ-ॿ]`. -/
def isDev (c : Char) : Bool := 0x900 ≤ c.toNat && c.toNat ≤ 0x97F

/-- The call `re.search` with the Devanagari class on `s`, as a Bool. -/
def hasDev (s : String) : Bool := s.data.any isDev

/-- Sentence terminators of the Latin branch: the lookbehind class `[.!?]`. -/
def isTermEn (c : Char) : Bool := c = '.' || c = '!' || c = '?'

/-- Sentence terminators of the other branch.  In the source the lookbehind
classes are `[<U+00E0><U+00A5><U+00A4>!?]` and `[!?]` (the first three are
the cp1252 mojibake of the Devanagari danda); their union is embedded. -/
def isTermHi (c : Char) : Bool :=
  c = 'à' || c = '¥' || c = '¤' || c = '!' || c = '?'

/-- Scanner state for `re.split` with pattern `(?<=[term])\s+|\n+`: inside a fragment
(with the previous character for the lookbehind), inside a whitespace gap
opened after a terminator, or inside a newline gap. -/
inductive SplitMode where
  | norm (prev : Option Char) (cur : List Char)
  | gapWs
  | gapNl

/-- Left-to-right scan realising `re.split` with pattern `(?<=[term])\s+|\n+`:
a greedy whitespace run after a terminator, or a greedy newline run,
ends the current fragment. -/
def splitGo (term : Char → Bool) : SplitMode → List Char → List (List Char)
  | .norm _ cur, [] => [cur.reverse]
  | .gapWs, [] => [[]]
  | .gapNl, [] => [[]]
  | .norm prev cur, c :: cs =>
    if (prev.any term) && pySpace c then cur.reverse :: splitGo term .gapWs cs
    else if c = '\n' then cur.reverse :: splitGo term .gapNl cs
    else splitGo term (.norm (some c) (c :: cur)) cs
  | .gapWs, c :: cs =>
    if pySpace c then splitGo term .gapWs cs
    else splitGo term (.norm (some c) [c]) cs
  | .gapNl, c :: cs =>
    if c = '\n' then splitGo term .gapNl cs
    else splitGo term (.norm (some c) [c]) cs

/-- `split_sentences(text, lang)` from the source: strip, pick the boundary
rule by language / script, split, then strip the fragments and drop the
empty ones. -/
def split_sentences (text : String) (lang : String) : List String :=
  let t := pyStripL text.data
  if t.isEmpty then []
  else
    let term := if startsWithS lang ("hi") || t.any isDev then isTermHi else isTermEn
    ((splitGo term (.norm none []) t).map (fun l => String.mk (pyStripL l))).filter
      (fun s => s ≠ "")

/-- Word characters for `re.findall` with pattern `\w+` (ASCII model). -/
def wordChar (c : Char) : Bool := c.isAlphanum || c = '_'

/-- Maximal runs of word characters; accumulator holds the reversed run. -/
def wordRunsGo : List Char → List Char → List (List Char)
  | [], cur => if cur.isEmpty then [] else [cur.reverse]
  | c :: cs, cur =>
    if wordChar c then wordRunsGo cs (c :: cur)
    else if cur.isEmpty then wordRunsGo cs []
    else cur.reverse :: wordRunsGo cs []

/-- `re.findall` with pattern `\w+` on `s`. -/
def findWords (s : String) : List String := (wordRunsGo s.data []).map String.mk

/-- The lowercased token list: `w.lower()` over `re.findall` of `text`. -/
def allWords (text : String) : List String := (findWords text).map pyLower

/-- `freq.get(w, 0)` where `freq = Counter(allWords text)`. -/
def freqCount (text : String) (w : String) : Nat := (allWords text).count w

/-- Score of one sentence: `sum(freq.get(w.lower(), 0) for w in findall(s))`. -/
def sentScore (text s : String) : Nat :=
  (((findWords s).map pyLower).map (freqCount text)).sum

/-- Score of the sentence at index `i` of the sentence list. -/
def scoreAt (text : String) (sents : List String) (i : Nat) : Nat :=
  sentScore text (sents.getD i "")

/-- The order in which the stable Python `sorted(scores, key=scores.get,
reverse=True)` lists the sentence indices: strictly larger score first,
and among equal scores the lower original index first.  (A stable
descending sort by key is exactly the sort by this linear order.) -/
def pyRank (score : Nat → Nat) (i j : Nat) : Prop :=
  score j < score i ∨ (score i = score j ∧ i ≤ j)

instance (score : Nat → Nat) : DecidableRel (pyRank score) :=
  fun i j => inferInstanceAs (Decidable (score j < score i ∨ (score i = score j ∧ i ≤ j)))

instance (score : Nat → Nat) : IsTotal Nat (pyRank score) where
  total i j := by
    unfold pyRank
    rcases Nat.lt_trichotomy (score i) (score j) with h | h | h
    · right; left; exact h
    · rcases Nat.le_total i j with hij | hij
      · left; right; exact ⟨h, hij⟩
      · right; right; exact ⟨h.symm, hij⟩
    · left; left; exact h

instance (score : Nat → Nat) : IsTrans Nat (pyRank score) where
  trans a b c hab hbc := by
    unfold pyRank at hab hbc ⊢
    rcases hab with h1 | ⟨h1, h1i⟩ <;> rcases hbc with h2 | ⟨h2, h2i⟩
    · left; omega
    · left; omega
    · left; omega
    · right; exact ⟨by omega, Nat.le_trans h1i h2i⟩

/-- `sorted(scores, key=scores.get, reverse=True)[:k]` followed by
`sorted(top_idx)`: take the best `k` indices in `pyRank` order, then list
them in ascending index order. -/
def topIndices (n k : Nat) (score : Nat → Nat) : List Nat :=
  List.insertionSort (fun i j => i ≤ j)
    ((List.insertionSort (pyRank score) (List.range n)).take k)

/-- The index list the summariser selects on the over-long branch. -/
def summarySelection (text : String) (k : Nat) (lang : String) : List Nat :=
  let sents := split_sentences text lang
  topIndices sents.length k (scoreAt text sents)

/-- `extractive_summary(text, max_sentences, lang)` from the source. -/
def extractive_summary (text : String) (max_sentences : Nat) (lang : String) : String :=
  let sents := split_sentences text lang
  if sents.isEmpty then ""
  else if sents.length ≤ max_sentences then String.intercalate (" ") sents
  else String.intercalate (" ")
    ((summarySelection text max_sentences lang).map (fun i => sents.getD i ""))

/-- Word-character test used for the regex word boundary `\b` (ASCII model
of `\w`). -/
def isWordB (c : Char) : Bool := c.isAlphanum || c = '_'

/-- Case-insensitive character match (re.IGNORECASE, ASCII). -/
def lowEq (c p : Char) : Bool := c.toLower = p.toLower

/-- Try to match `key` case-insensitively at the head of `l`; on success
return the unconsumed rest. -/
def matchCI : List Char → List Char → Option (List Char)
  | [], rest => some rest
  | _ :: _, [] => none
  | p :: ps, c :: cs => if lowEq c p then matchCI ps cs else none

/-- A `\b` boundary holds next to `o` (string edge or a non-word char). -/
def boundaryOk (o : Option Char) : Bool := o.all (fun c => !(isWordB c))

/-- Whole-word case-insensitive match of `key` at the current position,
`prev` being the character before that position. -/
def hasWordAt (key : List Char) (prev : Option Char) (l : List Char) : Bool :=
  boundaryOk prev &&
    (match matchCI key l with
     | some rest => boundaryOk rest.head?
     | none => false)

/-- Does `re.search` of the whole-word ignore-case pattern for `key` succeed anywhere in `s`? -/
def hasGo (key : List Char) : Option Char → List Char → Bool
  | prev, [] => hasWordAt key prev []
  | prev, c :: cs => hasWordAt key prev (c :: cs) || hasGo key (some c) cs

/-- Whole-word case-insensitive occurrence test on strings. -/
def hasWordCI (key s : String) : Bool := hasGo key.data none s.data

/-- One pass of `re.sub` with the whole-word ignore-case pattern for `key`:
leftmost non-overlapping matches are replaced; scanning resumes after the
matched text (whose last character is the lookbehind of the next `\b`).
The fuel is the length of the scanned list, which the scan never exceeds. -/
def subGo (key rep : List Char) : Nat → Option Char → List Char → List Char
  | 0, _, l => l
  | _ + 1, _, [] => []
  | fuel + 1, prev, c :: cs =>
    if hasWordAt key prev (c :: cs) then
      rep ++ subGo key rep fuel (((c :: cs).take key.length).getLast?)
        ((c :: cs).drop key.length)
    else c :: subGo key rep fuel (some c) cs

/-- The full `re.sub` call of the paraphraser: whole-word, ignore-case. -/
def subWordCI (key rep s : String) : String :=
  String.mk (subGo key.data rep.data s.data.length none s.data)

/-- `str.replace(pat, rep)`: leftmost non-overlapping literal replacement.
Fuel as in `subGo`. -/
def pyReplaceGo (pat rep : List Char) : Nat → List Char → List Char
  | 0, l => l
  | _ + 1, [] => []
  | fuel + 1, c :: cs =>
    if pat.isPrefixOf (c :: cs) then
      rep ++ pyReplaceGo pat rep fuel ((c :: cs).drop pat.length)
    else c :: pyReplaceGo pat rep fuel cs

/-- `s.replace(pat, rep)` on character lists. -/
def pyReplace (s pat rep : List Char) : List Char := pyReplaceGo pat rep s.length s

/-- The English synonym dictionary, in its Python insertion order. -/
def enSyn : List (String × String) :=
  [("said", "stated"), ("shows", "reveals"), ("important", "crucial"),
   ("use", "utilize"), ("many", "numerous")]

/-- First key of the Devanagari dictionary as the interpreter sees it:
the cp1252 mojibake of the UTF-8 bytes of the word KAHAA
(bytes E0 A4 95 / E0 A4 B9 / E0 A4 BE). -/
def hiKey1 : List Char :=
  ['à', '¤', '•', 'à', '¤', '¹', 'à', '¤', '¾']

/-- Its value, the mojibake of BATAAYAA (E0 A4 AC / E0 A4 A4 / E0 A4 BE /
E0 A4 AF / E0 A4 BE); also the second key of the dictionary. -/
def hiVal1 : List Char :=
  ['à', '¤', '¬', 'à', '¤', '¤', 'à', '¤', '¾', 'à', '¤', '¯', 'à', '¤', '¾']

/-- Second key (identical to `hiVal1` in the source). -/
def hiKey2 : List Char := hiVal1

/-- Second value, the mojibake of SUUCHIT KIYAA. -/
def hiVal2 : List Char :=
  ['à', '¤', '¸', 'à', '¥', '‚', 'à', '¤', 'š', 'à', '¤', '¿',
   'à', '¤', '¤', ' ', 'à', '¤', '•', 'à', '¤', '¿', 'à', '¤', '¯',
   'à', '¤', '¾']

/-- Third key, the mojibake of KIYAA (a suffix of `hiVal2`). -/
def hiKey3 : List Char :=
  ['à', '¤', '•', 'à', '¤', '¿', 'à', '¤', '¯', 'à', '¤', '¾']

/-- Third value, the mojibake of ANJAAM DIYAA. -/
def hiVal3 : List Char :=
  ['à', '¤', '…', 'à', '¤', '‚', 'à', '¤', 'œ', 'à', '¤', '¾',
   'à', '¤', '®', ' ', 'à', '¤', '¦', 'à', '¤', '¿', 'à', '¤', '¯', 'à', '¤', '¾']

/-- `paraphrase_text(text, lang)` from the source: on the Devanagari branch
the three `str.replace` substitutions run sequentially over the whole
string; on the Latin branch the five whole-word regex substitutions run
sequentially in dictionary order. -/
def paraphrase_text (text : String) (lang : String) : String :=
  if text = "" then ""
  else if startsWithS lang ("hi") || hasDev text then
    String.mk (pyReplace (pyReplace (pyReplace text.data hiKey1 hiVal1) hiKey2 hiVal2)
      hiKey3 hiVal3)
  else enSyn.foldl (fun acc kv => subWordCI kv.1 kv.2 acc) text

/-- `OUTPUT_BASE` from the source. -/
def OUTPUT_BASE : String := "outputs_final"

/-- The regex class `[A-Za-z0-9_]` of `short_safe_folder`. -/
def folderChar (c : Char) : Bool :=
  (0x41 ≤ c.toNat && c.toNat ≤ 0x5A) || (0x61 ≤ c.toNat && c.toNat ≤ 0x7A) ||
  (0x30 ≤ c.toNat && c.toNat ≤ 0x39) || c = '_'

/-- `re.sub` collapsing underscore runs, on a string of which every character either
is kept or became an underscore: collapse runs of underscores.  The flag
records whether the previous character was an underscore. -/
def collapseU : Bool → List Char → List Char
  | _, [] => []
  | prevU, c :: cs =>
    if c = '_' then (if prevU then collapseU true cs else '_' :: collapseU true cs)
    else c :: collapseU false cs

/-- `str.strip` with the underscore argument. -/
def stripUnders (l : List Char) : List Char :=
  ((l.dropWhile (fun c => c = '_')).reverse.dropWhile (fun c => c = '_')).reverse

/-- The cleaned title: non-`[A-Za-z0-9_]` characters replaced by `_`, runs
collapsed, leading and trailing underscores stripped. -/
def cleanOf (title : String) : List Char :=
  stripUnders (collapseU false (title.data.map (fun c => if folderChar c then c else '_')))

/-- Basename computed by `short_safe_folder(title)`.  The MD5 hex digest of
the external `hashlib` and the `datetime.now` timestamp are parameters. -/
def short_safe_name (md5hex : List Char → List Char) (now : String) (title : String)
    (max_len : Nat) : List Char :=
  let t := if title = "" then "article" else title
  let clean := cleanOf t
  let short :=
    if clean.length ≤ max_len then clean
    else clean.take (max_len - 9) ++ '_' :: (md5hex clean).take 8
  if short.isEmpty then ("article_" ++ now).data else short

/-- `short_safe_folder(title)` = `os.path.join(OUTPUT_BASE, short)`. -/
def short_safe_folder (md5hex : List Char → List Char) (now : String) (title : String) :
    String :=
  OUTPUT_BASE ++ "/" ++ String.mk (short_safe_name md5hex now title 60)

/-- No two adjacent underscores. -/
def noDoubleU : List Char → Bool
  | [] => true
  | [_] => true
  | a :: b :: rest => !(a = '_' && b = '_') && noDoubleU (b :: rest)

/-- Lowercase hexadecimal digit (the alphabet of `hashlib.md5().hexdigest()`). -/
def isHexDigit (c : Char) : Bool :=
  (0x30 ≤ c.toNat && c.toNat ≤ 0x39) || (0x61 ≤ c.toNat && c.toNat ≤ 0x66)

/-- Outcome of the external `langdetect.detect` call. -/
inductive DetectOutcome where
  | ok (code : String)
  | failLang
  | failOther

/-- `detect_language(text)` from the source, with the library call
parameterised: on `LangDetectException` fall back to the Devanagari scan,
on any other exception return "en". -/
def detect_language (outcome : DetectOutcome) (text : String) : String :=
  match outcome with
  | .ok c => c
  | .failLang => if hasDev text then "hi" else "en"
  | .failOther => "en"

/-- One `<img>` tag of the page together with the outcomes of the external
calls made for it: `downloadOk` is true when the GET succeeded with a 2xx
status and the body streamed to disk completely, `decodeOk` is true when
`PIL.Image.open(...).verify()` succeeded on the written file. -/
structure ImgItem where
  src : Option String
  dataSrc : Option String
  dataLazySrc : Option String
  downloadOk : Bool
  decodeOk : Bool

/-- Python `a or b` for attribute lookups, where `None` and `""` are falsy. -/
def attrOr : Option String → Option String → Option String
  | some s, b => if s = "" then b else some s
  | none, b => b

/-- `img.get("src") or img.get("data-src") or img.get("data-lazy-src")`. -/
def effSrc (it : ImgItem) : Option String :=
  attrOr it.src (attrOr it.dataSrc it.dataLazySrc)

/-- The `src` the loop actually downloads: the attribute chain, the
`if not src: continue` check, `strip()`, and the
`src.lower().startswith("http")` check. -/
def usableSrc (it : ImgItem) : Option String :=
  match effSrc it with
  | none => none
  | some s0 =>
    if s0 = "" then none
    else
      let s := pyStrip s0
      if startsWithS (pyLower s) ("http") then some s else none

/-- `pathlib.PurePath(src).suffix`: the extension of the final path
component, empty when the last dot is missing, leading or trailing. -/
def pathSuffix (s : String) : String :=
  let name := ((s.splitOn ("/")).getLastD ("")).data
  let k := (name.reverse.takeWhile (fun c => c ≠ '.')).length
  if k = name.length then ""
  else
    let i := name.length - 1 - k
    if 0 < i && i < name.length - 1 then String.mk (name.drop i) else ""

/-- `ext = Path(src).suffix if Path(src).suffix and len(...) <= 6 else ".jpg"`. -/
def extOf (src : String) : String :=
  if pathSuffix src ≠ "" && (pathSuffix src).length ≤ 6 then pathSuffix src else ".jpg"

/-- An image the loop saves: usable source, download succeeded, decode
validation succeeded. -/
def goodItem (it : ImgItem) : Bool :=
  (usableSrc it).isSome && it.downloadOk && it.decodeOk

/-- The download loop of `download_images_from_html`.  `saved` accumulates
the returned path list and `disk` the files currently on disk, both tagged
with the `ImgItem` they came from.  A failed download writes no complete
file; a file that fails decode validation is written and then removed
(`os.remove(outpath)`), which the disk model performs by filtering out the
path just written. -/
def harvestGo (folder : String) (maxImages : Nat) :
    List ImgItem → Nat → List (String × ImgItem) → List (String × ImgItem) →
    List (String × ImgItem) × List (String × ImgItem)
  | [], _, saved, disk => (saved, disk)
  | it :: rest, c, saved, disk =>
    if maxImages ≤ c then (saved, disk)
    else
      match usableSrc it with
      | none => harvestGo folder maxImages rest c saved disk
      | some s =>
        if !it.downloadOk then harvestGo folder maxImages rest c saved disk
        else
          let outpath := folder ++ "/img_" ++ toString (c + 1) ++ extOf s
          let disk1 := disk.filter (fun p => p.1 ≠ outpath) ++ [(outpath, it)]
          if !it.decodeOk then
            harvestGo folder maxImages rest c saved (disk1.filter (fun p => p.1 ≠ outpath))
          else
            harvestGo folder maxImages rest (c + 1) (saved ++ [(outpath, it)]) disk1

/-- `download_images_from_html`: the returned list of saved paths.  The
`<img>` tags found by BeautifulSoup and the per-image download/decode
outcomes are the `imgs` parameter. -/
def download_images_from_html (imgs : List ImgItem) (folder : String) (maxImages : Nat) :
    List String :=
  ((harvestGo folder maxImages imgs 0 [] []).1).map Prod.fst

/-- The final result record of a successful pipeline run. -/
structure OutputBundle where
  url : String
  title : String
  folder : String
  images : List String
  docx : String
  pdf : String
  txt : String
  summary : String

/-- Outcomes of the effectful steps of one `process_url_pipeline(url)` run:
the three fetch tiers, the BeautifulSoup extractors, langdetect, directory
creation, the image loop, the three document writers (an `Except` error is
the text of the exception they raised), the MD5 digest and the two
timestamps drawn during the run. -/
structure PipelineEnv where
  reqHtml : Option String
  csAvailable : Bool
  csHtml : Option String
  selHtml : Except String String
  extractText : String → String
  extractTitle : String → String
  detect : DetectOutcome
  doParaphrase : Bool
  summarySentences : Nat
  mkdirFails : Bool
  images : List ImgItem
  maxImages : Nat
  saveDocx : Except String Unit
  savePdf : Except String Unit
  saveTxt : Except String Unit
  md5hex : List Char → List Char
  now : String
  ts : String

/-- The three-tier fetch of `process_url_pipeline` (lines 318-334): plain
requests, then cloudscraper when available, then Selenium when there is
still no HTML or the HTML so far looks blocked; a Selenium exception is
the `fetch_error` case. -/
def fetch_stage (env : PipelineEnv) : Except String String :=
  let html1 := env.reqHtml
  let html2 := if html1.isNone && env.csAvailable then env.csHtml else html1
  let hstr := html2.getD ""
  if html2.isNone || containsSub (pyLower hstr) ("access denied") ||
      containsSub hstr ("Request blocked") then
    env.selHtml
  else .ok hstr

/-- The first exception raised inside the `try` block around the three
document writes, if any (the writes run in docx, pdf, txt order and the
first failure aborts the block). -/
def firstSaveError (env : PipelineEnv) : Option String :=
  match env.saveDocx with
  | .error e => some e
  | .ok _ =>
    match env.savePdf with
    | .error e => some e
    | .ok _ =>
      match env.saveTxt with
      | .error e => some e
      | .ok _ => none

/-- `process_url_pipeline(url)` from the source, over the outcome
environment.  Returns the result record (or `none`) and the status string. -/
def process_url_pipeline (url : String) (env : PipelineEnv) : Option OutputBundle × String :=
  let u := pyStrip url
  if u = "" then (none, "empty")
  else
    match fetch_stage env with
    | .error e => (none, "fetch_error: " ++ e)
    | .ok html =>
      if html = "" then (none, "no_html")
      else
        let low := pyLower html
        if containsSub low ("access denied") && containsSub low ("reference") then
          (none, "access_denied")
        else
          let text := env.extractText html
          let lang := detect_language env.detect text
          let summary := extractive_summary text env.summarySentences lang
          let paraphrased := if env.doParaphrase then paraphrase_text summary lang else summary
          let t0 := env.extractTitle html
          let seg := (u.splitOn ("/")).getLastD ("")
          let title := if t0 ≠ "" then t0 else if seg ≠ "" then seg else "article"
          let folder :=
            if env.mkdirFails then
              OUTPUT_BASE ++ "/article_" ++ String.mk ((env.md5hex title.data).take 8)
            else short_safe_folder env.md5hex env.now title
          let imagePaths := download_images_from_html env.images folder env.maxImages
          let docxPath := folder ++ "/summary_" ++ env.ts ++ ".docx"
          let pdfPath := folder ++ "/summary_" ++ env.ts ++ ".pdf"
          let txtPath := folder ++ "/summary_" ++ env.ts ++ ".txt"
          match env.saveDocx with
          | .error e => (none, "save_error: " ++ e)
          | .ok _ =>
            match env.savePdf with
            | .error e => (none, "save_error: " ++ e)
            | .ok _ =>
              match env.saveTxt with
              | .error e => (none, "save_error: " ++ e)
              | .ok _ =>
                (some ⟨u, title, folder, imagePaths, docxPath, pdfPath, txtPath, paraphrased⟩,
                 "ok")

/-- Outcome environment used to exercise the access-denied branch: both
HTTP tiers yield nothing and the browser tier returns a blocked page. -/
def envDenied : PipelineEnv :=
  ⟨none, false, none, .ok ("<html>Access Denied. You do not have permission. reference #18</html>"),
   (fun _ => ""), (fun _ => ""), .failOther, true, 50, false, [], 10,
   .ok (), .ok (), .ok (), (fun l => l), "N", "T"⟩

/-- Outcome environment used to exercise the save-failure branch: a good
page is fetched, the DOCX write succeeds, the PDF write raises. -/
def envSaveFail : PipelineEnv :=
  ⟨none, false, none, .ok ("<html><p>hello world</p></html>"),
   (fun _ => "hello world"), (fun _ => "T"), .failOther, true, 50, false, [], 10,
   .ok (), .error ("boom"), .ok (), (fun l => l), "N", "T"⟩

/- ------------------------------------------------------------------ -/
/- Theorems.                                                           -/
/- ------------------------------------------------------------------ -/

theorem collapseU_true_all_unders :
    ∀ l : List Char, (∀ c ∈ l, c = '_') → collapseU true l = [] := by
  intro l
  induction l with
  | nil => intro _; rfl
  | cons c cs ih =>
    intro h
    have hc : c = '_' := h c (List.mem_cons_self c cs)
    simp [collapseU, hc, ih (fun x hx => h x (List.mem_cons_of_mem c hx))]

theorem collapseU_false_all_unders (c : Char) (cs : List Char)
    (h : ∀ x ∈ c :: cs, x = '_') : collapseU false (c :: cs) = ['_'] := by
  have hc : c = '_' := h c (List.mem_cons_self c cs)
  simp [collapseU, hc,
    collapseU_true_all_unders cs (fun x hx => h x (List.mem_cons_of_mem c hx))]

/-- C2: for a text whose sentence count is at most the configured maximum,
`extractive_summary` returns all sentences, unmodified and in original
order, joined by single spaces (no scoring happens). -/
theorem extractive_summary_le_max (text lang : String) (k : Nat)
    (h : (split_sentences text lang).length ≤ k) :
    extractive_summary text k lang =
      String.intercalate (" ") (split_sentences text lang) := by
  by_cases he : (split_sentences text lang).isEmpty
  · have h0 : split_sentences text lang = [] := List.isEmpty_iff.mp he
    simp [extractive_summary, h0]
    rfl
  · simp [extractive_summary, he, h]

/-- C2 witness: a concrete two-sentence text under a maximum of three. -/
theorem extractive_summary_le_max_witness :
    (split_sentences ("Hi there. Bye now.") ("en")).length ≤ 3 ∧
    extractive_summary ("Hi there. Bye now.") 3 ("en") =
      String.intercalate (" ") (split_sentences ("Hi there. Bye now.") ("en")) :=
  ⟨by decide, extractive_summary_le_max ("Hi there. Bye now.") ("en") 3 (by decide)⟩

/-- C6: `short_safe_folder("My Article!!")` produces the basename
`My_Article`: only `[A-Za-z0-9_]` characters, no doubled underscore, no
leading or trailing underscore.  The MD5 digest and the timestamp are not
used on this input, so the statement holds for every digest function. -/
theorem short_safe_name_clean (md5hex : List Char → List Char) (now : String) :
    (short_safe_name md5hex now ("My Article!!") 60).all folderChar = true ∧
    noDoubleU (short_safe_name md5hex now ("My Article!!") 60) = true ∧
    (short_safe_name md5hex now ("My Article!!") 60).head? ≠ some '_' ∧
    (short_safe_name md5hex now ("My Article!!") 60).getLast? ≠ some '_' := by
  have h : short_safe_name md5hex now ("My Article!!") 60 = ("My_Article").data := rfl
  rw [h]
  exact ⟨by decide, by decide, by decide, by decide⟩

/-- C9: in the Devanagari branch the three `str.replace` substitutions are
chained over the whole string, so the output of the second rule is
rewritten by the third.  On the input that is exactly the second
dictionary key, the result is the third substitution applied to that
synonym of that key, not the synonym itself. -/
theorem paraphrase_hi_chained :
    paraphrase_text (String.mk hiKey2) ("hi") =
      String.mk (pyReplace hiVal2 hiKey3 hiVal3) ∧
    paraphrase_text (String.mk hiKey2) ("hi") ≠ String.mk hiVal2 := by
  exact ⟨by decide, by decide⟩

/-- C10: a non-empty title with no `[A-Za-z0-9_]` character cleans to the
empty string, so `short_safe_folder` falls back to the timestamp-based
`article_<now>` name rather than deriving the name from the title. -/
theorem short_safe_name_fallback (md5hex : List Char → List Char) (now title : String)
    (h1 : title ≠ "") (h2 : ∀ c ∈ title.data, folderChar c = false) :
    short_safe_name md5hex now title 60 = ("article_" ++ now).data := by
  have hall : ∀ x ∈ title.data.map (fun c => if folderChar c then c else '_'), x = '_' := by
    intro x hx
    rcases List.mem_map.mp hx with ⟨a, ha, rfl⟩
    simp [h2 a ha]
  have hclean : cleanOf title = [] := by
    unfold cleanOf
    cases hm : title.data.map (fun c => if folderChar c then c else '_') with
    | nil => simp [stripUnders, collapseU]
    | cons c cs =>
      rw [collapseU_false_all_unders c cs (by rw [← hm]; exact hall)]
      decide
  simp [short_safe_name, h1, hclean]

/-- C10 witness: the all-punctuation title. -/
theorem short_safe_name_fallback_witness :
    ("!!!" : String) ≠ "" ∧ (∀ c ∈ ("!!!" : String).data, folderChar c = false) ∧
    short_safe_name (fun l => l) ("20250101_000000") ("!!!") 60 =
      ("article_20250101_000000").data :=
  ⟨by decide, by decide,
   short_safe_name_fallback (fun l => l) ("20250101_000000") ("!!!") (by decide) (by decide)⟩

/-- C3: when the fetch stage ends with HTML that contains both
"access denied" and "reference" case-insensitively, the pipeline stops
with status `access_denied` and builds no result record. -/
theorem pipeline_access_denied (url : String) (env : PipelineEnv) (html : String)
    (hu : pyStrip url ≠ "")
    (hf : fetch_stage env = .ok html)
    (h1 : containsSub (pyLower html) ("access denied") = true)
    (h2 : containsSub (pyLower html) ("reference") = true) :
    process_url_pipeline url env = (none, "access_denied") := by
  have hne : html ≠ "" := by
    intro h0
    rw [h0] at h1
    exact absurd h1 (by decide)
  simp [process_url_pipeline, hu, hf, hne, h1, h2]

/-- C3 witness: a blocked page delivered by the browser tier. -/
theorem pipeline_access_denied_witness :
    pyStrip ("http://x/page") ≠ "" ∧
    containsSub (pyLower ("<html>Access Denied. You do not have permission. reference #18</html>"))
      ("access denied") = true ∧
    containsSub (pyLower ("<html>Access Denied. You do not have permission. reference #18</html>"))
      ("reference") = true ∧
    process_url_pipeline ("http://x/page") envDenied = (none, "access_denied") :=
  ⟨by decide, by decide, by decide,
   pipeline_access_denied ("http://x/page") envDenied
     ("<html>Access Denied. You do not have permission. reference #18</html>")
     (by decide) (by rfl) (by decide) (by decide)⟩

/-- C4: on a run that reaches the document-write stage, a failure of any of
the three writes (the first one to raise, in docx, pdf, txt order) makes
the pipeline return no result record and the status
`save_error: <detail>`; and when none of the writes fails the record is
built with status `ok` — so a record exists exactly when all three writes
succeeded. -/
theorem pipeline_save_atomicity (url : String) (env : PipelineEnv) (html : String)
    (hu : pyStrip url ≠ "")
    (hf : fetch_stage env = .ok html) (hne : html ≠ "")
    (hden : (containsSub (pyLower html) ("access denied") &&
             containsSub (pyLower html) ("reference")) = false) :
    (∀ e, firstSaveError env = some e →
      process_url_pipeline url env = (none, "save_error: " ++ e)) ∧
    (firstSaveError env = none →
      (process_url_pipeline url env).1.isSome = true ∧
      (process_url_pipeline url env).2 = "ok") := by
  constructor
  · intro e he
    cases hd : env.saveDocx with
    | error e1 =>
      have : e1 = e := by simp [firstSaveError, hd] at he; exact he
      subst this
      simp [process_url_pipeline, hu, hf, hne, hden, hd]
    | ok _ =>
      cases hp : env.savePdf with
      | error e2 =>
        have : e2 = e := by simp [firstSaveError, hd, hp] at he; exact he
        subst this
        simp [process_url_pipeline, hu, hf, hne, hden, hd, hp]
      | ok _ =>
        cases ht : env.saveTxt with
        | error e3 =>
          have : e3 = e := by simp [firstSaveError, hd, hp, ht] at he; exact he
          subst this
          simp [process_url_pipeline, hu, hf, hne, hden, hd, hp, ht]
        | ok _ => simp [firstSaveError, hd, hp, ht] at he
  · intro he
    cases hd : env.saveDocx with
    | error e1 => simp [firstSaveError, hd] at he
    | ok _ =>
      cases hp : env.savePdf with
      | error e2 => simp [firstSaveError, hd, hp] at he
      | ok _ =>
        cases ht : env.saveTxt with
        | error e3 => simp [firstSaveError, hd, hp, ht] at he
        | ok _ =>
          constructor <;>
            simp [process_url_pipeline, hu, hf, hne, hden, hd, hp, ht]

/-- C4 witness: the DOCX write succeeds (the file is already on disk), the
PDF write raises; the run is reported failed with the exception detail. -/
theorem pipeline_save_atomicity_witness :
    pyStrip ("http://x/page") ≠ "" ∧
    firstSaveError envSaveFail = some ("boom") ∧
    process_url_pipeline ("http://x/page") envSaveFail = (none, "save_error: boom") :=
  ⟨by decide, by rfl,
   (pipeline_save_atomicity ("http://x/page") envSaveFail
       ("<html><p>hello world</p></html>") (by decide) (by rfl) (by decide)
       (by decide)).1 ("boom") (by rfl)⟩

/-- C7: a title whose cleaned form is longer than 60 characters yields a
basename of at most 60 characters that is the 51-character truncation of
the cleaned title followed by an underscore and the first 8 characters of
the MD5 hex digest.  The digest is the external `hashlib` call, assumed to
return a 32-character lowercase-hex string. -/
theorem short_safe_name_long (md5hex : List Char → List Char) (now title : String)
    (hm32 : (md5hex (cleanOf title)).length = 32)
    (hmhex : ∀ c ∈ md5hex (cleanOf title), isHexDigit c = true)
    (hlong : 60 < (cleanOf title).length) :
    (short_safe_name md5hex now title 60).length ≤ 60 ∧
    ∃ h8 : List Char, h8.length = 8 ∧ (∀ c ∈ h8, isHexDigit c = true) ∧
      short_safe_name md5hex now title 60 = (cleanOf title).take 51 ++ '_' :: h8 := by
  have htitle : title ≠ "" := by
    intro h0
    rw [h0] at hlong
    exact absurd hlong (by decide)
  have hgt : ¬((cleanOf title).length ≤ 60) := by omega
  have hshort : short_safe_name md5hex now title 60 =
      (cleanOf title).take 51 ++ '_' :: (md5hex (cleanOf title)).take 8 := by
    simp only [short_safe_name, if_neg htitle, if_neg hgt]
    have : ((cleanOf title).take 51 ++ '_' :: (md5hex (cleanOf title)).take 8).isEmpty = false := by
      simp [List.isEmpty_iff]
    simp [this]
  rw [hshort]
  have h51 : ((cleanOf title).take 51).length = 51 := by
    rw [List.length_take]
    omega
  have h8 : ((md5hex (cleanOf title)).take 8).length = 8 := by
    rw [List.length_take, hm32]
    omega
  constructor
  · simp only [List.length_append, List.length_cons, h51, h8]
    omega
  · refine ⟨(md5hex (cleanOf title)).take 8, h8, ?_, rfl⟩
    intro c hc
    exact hmhex c (List.mem_of_mem_take hc)

/-- C7 witness: a 70-character title with a constant stand-in digest. -/
theorem short_safe_name_long_witness :
    ((fun _ => ("0123456789abcdef0123456789abcdef").data) (cleanOf
        ("aaaaaaaaaaaaaaaaaaaaaaaaaaaaaaaaaaaaaaaaaaaaaaaaaaaaaaaaaaaaaaaaaaaaaa"))).length = 32 ∧
    60 < (cleanOf ("aaaaaaaaaaaaaaaaaaaaaaaaaaaaaaaaaaaaaaaaaaaaaaaaaaaaaaaaaaaaaaaaaaaaaa")).length ∧
    (short_safe_name (fun _ => ("0123456789abcdef0123456789abcdef").data) ("TS")
      ("aaaaaaaaaaaaaaaaaaaaaaaaaaaaaaaaaaaaaaaaaaaaaaaaaaaaaaaaaaaaaaaaaaaaaa") 60).length ≤ 60 :=
  ⟨by decide, by decide,
   (short_safe_name_long (fun _ => ("0123456789abcdef0123456789abcdef").data) ("TS")
       ("aaaaaaaaaaaaaaaaaaaaaaaaaaaaaaaaaaaaaaaaaaaaaaaaaaaaaaaaaaaaaaaaaaaaaa")
       (by decide) (by decide) (by decide)).1⟩

theorem subGo_of_no_match (key rep : List Char) :
    ∀ (l : List Char) (fuel : Nat) (prev : Option Char),
      hasGo key prev l = false → subGo key rep fuel prev l = l := by
  intro l
  induction l with
  | nil =>
    intro fuel prev _
    cases fuel <;> rfl
  | cons c cs ih =>
    intro fuel prev h
    have hsplit : hasWordAt key prev (c :: cs) = false ∧ hasGo key (some c) cs = false := by
      have := h
      simp [hasGo, Bool.or_eq_false_iff] at this
      exact this
    cases fuel with
    | zero => rfl
    | succ f =>
      simp [subGo, hsplit.1, ih f (some c) hsplit.2]

theorem subWordCI_of_no_match (key rep text : String)
    (h : hasWordCI key text = false) : subWordCI key rep text = text := by
  unfold subWordCI
  rw [subGo_of_no_match key.data rep.data text.data text.data.length none h]

/-- C8: with language "en" and no Devanagari characters, a text containing
none of the five dictionary keys as a case-insensitive whole word passes
through `paraphrase_text` unchanged. -/
theorem paraphrase_en_identity (text : String)
    (hdev : hasDev text = false)
    (h1 : hasWordCI ("said") text = false)
    (h2 : hasWordCI ("shows") text = false)
    (h3 : hasWordCI ("important") text = false)
    (h4 : hasWordCI ("use") text = false)
    (h5 : hasWordCI ("many") text = false) :
    paraphrase_text text ("en") = text := by
  by_cases h0 : text = ""
  · rw [h0]
    rfl
  · have hs : startsWithS ("en") ("hi") = false := by decide
    simp only [paraphrase_text, if_neg h0, hs, hdev, Bool.or_self, Bool.false_eq_true,
      if_false, enSyn, List.foldl]
    rw [subWordCI_of_no_match _ _ _ h1, subWordCI_of_no_match _ _ _ h2,
      subWordCI_of_no_match _ _ _ h3, subWordCI_of_no_match _ _ _ h4,
      subWordCI_of_no_match _ _ _ h5]

/-- C8 witness: a key-free sentence (note that "reuse" contains "use" only
without a word boundary). -/
theorem paraphrase_en_identity_witness :
    hasDev ("The quick brown fox likes reuse.") = false ∧
    hasWordCI ("said") ("The quick brown fox likes reuse.") = false ∧
    hasWordCI ("use") ("The quick brown fox likes reuse.") = false ∧
    paraphrase_text ("The quick brown fox likes reuse.") ("en") =
      "The quick brown fox likes reuse." :=
  ⟨by decide, by decide, by decide,
   paraphrase_en_identity ("The quick brown fox likes reuse.") (by decide) (by decide)
     (by decide) (by decide) (by decide) (by decide)⟩

theorem harvestGo_length (folder : String) (maxI : Nat) :
    ∀ (l : List ImgItem) (c : Nat) (saved disk : List (String × ImgItem)),
      (harvestGo folder maxI l c saved disk).1.length =
        saved.length + min (maxI - c) (l.countP goodItem) := by
  intro l
  induction l with
  | nil =>
    intro c saved disk
    simp [harvestGo]
  | cons it rest ih =>
    intro c saved disk
    by_cases hc : maxI ≤ c
    · have h0 : maxI - c = 0 := by omega
      simp [harvestGo, hc, h0]
    · rcases hs : usableSrc it with _ | s
      · have hg : goodItem it = false := by simp [goodItem, hs]
        simp [harvestGo, hc, hs, ih, List.countP_cons, hg]
      · by_cases hd : it.downloadOk
        · by_cases hv : it.decodeOk
          · have hg : goodItem it = true := by simp [goodItem, hs, hd, hv]
            simp [harvestGo, hc, hs, hd, hv, ih, List.countP_cons, hg]
            omega
          · have hg : goodItem it = false := by simp [goodItem, hv]
            simp [harvestGo, hc, hs, hd, hv, ih, List.countP_cons, hg]
        · have hg : goodItem it = false := by simp [goodItem, hd]
          simp [harvestGo, hc, hs, hd, ih, List.countP_cons, hg]

theorem harvestGo_saved_good (folder : String) (maxI : Nat) :
    ∀ (l : List ImgItem) (c : Nat) (saved disk : List (String × ImgItem)),
      (∀ p ∈ saved, goodItem p.2 = true) →
      ∀ q ∈ (harvestGo folder maxI l c saved disk).1, goodItem q.2 = true := by
  intro l
  induction l with
  | nil =>
    intro c saved disk hs q hq
    exact hs q hq
  | cons it rest ih =>
    intro c saved disk hs q hq
    by_cases hc : maxI ≤ c
    · rw [harvestGo, if_pos hc] at hq
      exact hs q hq
    · rcases hu : usableSrc it with _ | s
      · rw [harvestGo, if_neg hc, hu] at hq
        exact ih c saved disk hs q hq
      · by_cases hd : it.downloadOk
        · by_cases hv : it.decodeOk
          · rw [harvestGo, if_neg hc, hu] at hq
            simp only [hd, hv, Bool.not_true, Bool.false_eq_true, if_false] at hq
            refine ih (c + 1) _ _ ?_ q hq
            intro p hp
            rcases List.mem_append.mp hp with h | h
            · exact hs p h
            · rcases List.mem_singleton.mp h with rfl
              simp [goodItem, hu, hd, hv]
          · rw [harvestGo, if_neg hc, hu] at hq
            simp only [hd, hv, Bool.not_true, Bool.not_false, Bool.false_eq_true, if_false,
              if_true] at hq
            exact ih c saved _ hs q hq
        · rw [harvestGo, if_neg hc, hu] at hq
          simp only [hd, Bool.not_false, if_true] at hq
          exact ih c saved disk hs q hq

theorem harvestGo_disk_in_saved (folder : String) (maxI : Nat) :
    ∀ (l : List ImgItem) (c : Nat) (saved disk : List (String × ImgItem)),
      (∀ p ∈ disk, p ∈ saved) →
      ∀ q ∈ (harvestGo folder maxI l c saved disk).2,
        q ∈ (harvestGo folder maxI l c saved disk).1 := by
  intro l
  induction l with
  | nil =>
    intro c saved disk hsub q hq
    exact hsub q hq
  | cons it rest ih =>
    intro c saved disk hsub q hq
    by_cases hc : maxI ≤ c
    · rw [harvestGo, if_pos hc] at hq ⊢
      exact hsub q hq
    · rcases hu : usableSrc it with _ | s
      · rw [harvestGo, if_neg hc, hu] at hq ⊢
        exact ih c saved disk hsub q hq
      · by_cases hd : it.downloadOk
        · by_cases hv : it.decodeOk
          · rw [harvestGo, if_neg hc, hu] at hq ⊢
            simp only [hd, hv, Bool.not_true, Bool.false_eq_true, if_false] at hq ⊢
            refine ih (c + 1) _ _ ?_ q hq
            intro p hp
            rcases List.mem_append.mp hp with h | h
            · exact List.mem_append.mpr (Or.inl (hsub p (List.mem_of_mem_filter h)))
            · exact List.mem_append.mpr (Or.inr h)
          · rw [harvestGo, if_neg hc, hu] at hq ⊢
            simp only [hd, hv, Bool.not_true, Bool.not_false, Bool.false_eq_true, if_false,
              if_true] at hq ⊢
            refine ih c saved _ ?_ q hq
            intro p hp
            have hp2 := List.mem_of_mem_filter hp
            rcases List.mem_append.mp hp2 with h | h
            · exact hsub p (List.mem_of_mem_filter h)
            · rcases List.mem_singleton.mp h with rfl
              have := List.of_mem_filter hp
              simp at this
        · rw [harvestGo, if_neg hc, hu] at hq ⊢
          simp only [hd, Bool.not_false, if_true] at hq ⊢
          exact ih c saved disk hsub q hq

/-- C5: per-image failures are isolated in `download_images_from_html`.
The returned path list has exactly `min maxImages g` entries where `g`
counts the images whose source is usable and whose download and decode
both succeeded (so one bad image never aborts the page and the cap is
respected); every returned path comes from such an image (an image that
fails decode validation is never returned); and every file left on disk
is one of the returned paths (the file of a decode failure was removed). -/
theorem download_images_isolated (imgs : List ImgItem) (folder : String) (maxI : Nat) :
    (download_images_from_html imgs folder maxI).length =
      min maxI (imgs.countP goodItem) ∧
    (download_images_from_html imgs folder maxI).length ≤ maxI ∧
    (∀ q ∈ (harvestGo folder maxI imgs 0 [] []).1, goodItem q.2 = true) ∧
    (∀ q ∈ (harvestGo folder maxI imgs 0 [] []).2,
      q ∈ (harvestGo folder maxI imgs 0 [] []).1) := by
  have hlen : (download_images_from_html imgs folder maxI).length =
      min maxI (imgs.countP goodItem) := by
    unfold download_images_from_html
    rw [List.length_map, harvestGo_length folder maxI imgs 0 [] []]
    simp
  refine ⟨hlen, ?_, ?_, ?_⟩
  · rw [hlen]
    omega
  · exact harvestGo_saved_good folder maxI imgs 0 [] [] (by intro p hp; cases hp)
  · exact harvestGo_disk_in_saved folder maxI imgs 0 [] [] (by intro p hp; cases hp)

theorem topIndices_spec (n k : Nat) (score : Nat → Nat) (hk : k < n) :
    (topIndices n k score).length = k ∧
    (∀ i ∈ topIndices n k score, i < n) ∧
    List.Sorted (· < ·) (topIndices n k score) ∧
    (∀ i, i < n → ∀ j, j < n → i < j → score i = score j →
      j ∈ topIndices n k score → i ∈ topIndices n k score) := by
  have hperm : List.Perm (List.insertionSort (pyRank score) (List.range n)) (List.range n) :=
    List.perm_insertionSort _ _
  have hlenA : (List.insertionSort (pyRank score) (List.range n)).length = n := by
    rw [hperm.length_eq, List.length_range]
  have hnodupA : (List.insertionSort (pyRank score) (List.range n)).Nodup :=
    hperm.nodup_iff.mpr (List.nodup_range n)
  have hsortA : List.Sorted (pyRank score) (List.insertionSort (pyRank score) (List.range n)) :=
    List.sorted_insertionSort _ _
  have htperm : List.Perm (topIndices n k score)
      ((List.insertionSort (pyRank score) (List.range n)).take k) :=
    List.perm_insertionSort _ _
  have hmem : ∀ i, i ∈ topIndices n k score ↔
      i ∈ (List.insertionSort (pyRank score) (List.range n)).take k :=
    fun i => htperm.mem_iff
  have hmemn : ∀ i ∈ topIndices n k score, i < n := by
    intro i hi
    have h2 : i ∈ List.insertionSort (pyRank score) (List.range n) :=
      List.mem_of_mem_take ((hmem i).mp hi)
    exact List.mem_range.mp (hperm.mem_iff.mp h2)
  refine ⟨?_, hmemn, ?_, ?_⟩
  · rw [htperm.length_eq, List.length_take, hlenA]
    omega
  · have hle : List.Sorted (fun i j => i ≤ j) (topIndices n k score) :=
      List.sorted_insertionSort _ _
    have hnodup : (topIndices n k score).Nodup :=
      htperm.nodup_iff.mpr (List.Nodup.sublist (List.take_sublist _ _) hnodupA)
    exact List.Sorted.lt_of_le hle hnodup
  · intro i hi j hj hij hsc hjmem
    rw [hmem] at hjmem ⊢
    have hiA : i ∈ List.insertionSort (pyRank score) (List.range n) :=
      hperm.mem_iff.mpr (List.mem_range.mpr hi)
    have hpw : List.Pairwise (pyRank score)
        ((List.insertionSort (pyRank score) (List.range n)).take k ++
         (List.insertionSort (pyRank score) (List.range n)).drop k) := by
      rw [List.take_append_drop]
      exact hsortA
    rcases List.mem_append.mp ((List.take_append_drop k
        (List.insertionSort (pyRank score) (List.range n))).symm ▸ hiA) with h | h
    · exact h
    · exfalso
      have hji : pyRank score j i := (List.pairwise_append.mp hpw).2.2 j hjmem i h
      rcases hji with hlt | ⟨_, hle⟩
      · omega
      · omega

/-- C1: on a text with more sentences than the configured maximum, the
summariser selects exactly `max_sentences` indices, all valid, listed in
strictly increasing (original) order, with frequency-score ties broken in
favour of the lower original index, and the returned summary is exactly
the selected original sentences joined by spaces. -/
theorem extractive_summary_gt_max (text lang : String) (k : Nat)
    (h : k < (split_sentences text lang).length) :
    (summarySelection text k lang).length = k ∧
    (∀ i ∈ summarySelection text k lang, i < (split_sentences text lang).length) ∧
    List.Sorted (· < ·) (summarySelection text k lang) ∧
    (∀ i, i < (split_sentences text lang).length →
      ∀ j, j < (split_sentences text lang).length → i < j →
      scoreAt text (split_sentences text lang) i =
        scoreAt text (split_sentences text lang) j →
      j ∈ summarySelection text k lang → i ∈ summarySelection text k lang) ∧
    extractive_summary text k lang = String.intercalate (" ")
      ((summarySelection text k lang).map
        (fun i => (split_sentences text lang).getD i "")) := by
  have hspec := topIndices_spec (split_sentences text lang).length k
    (scoreAt text (split_sentences text lang)) h
  have hsel : summarySelection text k lang = topIndices (split_sentences text lang).length k
      (scoreAt text (split_sentences text lang)) := rfl
  rw [hsel]
  refine ⟨hspec.1, hspec.2.1, hspec.2.2.1, hspec.2.2.2, ?_⟩
  have hne : (split_sentences text lang).isEmpty = false := by
    rcases h0 : split_sentences text lang with _ | ⟨a, l⟩
    · rw [h0] at h
      exact absurd h (by simp)
    · rfl
  have hgt : ¬((split_sentences text lang).length ≤ k) := by omega
  simp only [extractive_summary, hne, Bool.false_eq_true, if_false, hgt, hsel]

/-- C1 witness: three one-word sentences with equal scores under a maximum
of two; the two lowest-index sentences are selected and rejoined. -/
theorem extractive_summary_gt_max_witness :
    2 < (split_sentences ("x. y. z.") ("en")).length ∧
    (summarySelection ("x. y. z.") 2 ("en")).length = 2 ∧
    extractive_summary ("x. y. z.") 2 ("en") = String.intercalate (" ")
      ((summarySelection ("x. y. z.") 2 ("en")).map
        (fun i => (split_sentences ("x. y. z.") ("en")).getD i "")) :=
  ⟨by decide, (extractive_summary_gt_max ("x. y. z.") ("en") 2 (by decide)).1,
   (extractive_summary_gt_max ("x. y. z.") ("en") 2 (by decide)).2.2.2.2⟩

end Scraper
